import Mathlib

/-!
Verification of the Vnet slice-download module
(repository `Test_GitHub`, directory `src/example`).

The repository ships the interface headers (`assignment.h`, `u_protocol.h`,
`u_transport.h`, `u_fw_interface.h`, `u_list.h`) together with a stubbed
`u_list.cc`.  The slice-download orchestrator itself
(`assignment_downloadSlice`) is declared but not implemented in the sources,
so the orchestrator's behaviour is modelled here from the specification
(spec.md sections 3-8), while every constant, wire-format fact and list
contract that the sources do fix is embedded directly from them.
-/

/- ----------------------------------------------------------------
   Protocol constants, embedded from src/example/inc/u_protocol.h
   ---------------------------------------------------------------- -/

/-- Embedded from `u_protocol.h` line 32: `#define MAX_FILE_FEED_CHUNK_SIZE 51200`. -/
def MAX_FILE_FEED_CHUNK_SIZE : Nat := 51200

/-- Embedded from `u_protocol.h` line 33: message type of a chunk request. -/
def FILE_FEED_REQUEST : Nat := 0x4036

/-- Embedded from `u_protocol.h` line 34: message type of a chunk response. -/
def FILE_FEED_RESPONSE : Nat := 0x3938

/-- Embedded from `u_protocol.h` lines 9-11: extended-info code
`PULL_PROT_EXTENDED_INFO_NODE_BUSY` has id 1. -/
def PULL_PROT_EXTENDED_INFO_NODE_BUSY_ID : Nat := 1

/-- Embedded from `u_protocol.h` lines 9-11: the node-busy extended info
carries a 4-byte payload. -/
def PULL_PROT_EXTENDED_INFO_NODE_BUSY_DATA_SIZE : Nat := 4

/-- Embedded from `u_protocol.h` lines 13-15: extended-info code
`FILE_FEED_EXTENDED_INFO_NO_SLICE_AVAILABLE` has id 128. -/
def FILE_FEED_EXTENDED_INFO_NO_SLICE_AVAILABLE_ID : Nat := 128

/-- Embedded from `u_protocol.h` lines 13-15: the no-slice-available extended
info carries no payload. -/
def FILE_FEED_EXTENDED_INFO_NO_SLICE_AVAILABLE_DATA_SIZE : Nat := 0

/-- Embedded from `u_protocol.h` line 18: the grammar production
`<crid>: 136<ascii>` — a content id is 136 ascii bytes on the wire. -/
def CRID_WIRE_LENGTH : Nat := 136

/-- `<netshort>` (u_protocol.h line 27): an unsigned 16-bit integer in network
byte order, most significant byte first. -/
def netshort (v : Nat) : List Nat := [v / 256 % 256, v % 256]

/-- `<netlong>` (u_protocol.h line 28): an unsigned 32-bit integer in network
byte order, most significant byte first. -/
def netlong (v : Nat) : List Nat :=
  [v / 16777216 % 256, v / 65536 % 256, v / 256 % 256, v % 256]

/-- A `FILE_FEED_REQUEST` payload, embedded from the grammar of
`u_protocol.h` lines 6 and 18-28:
`<crid><slice_id><offset><chunk_size>` with `<crid>: 136<ascii>`,
`<slice_id>: <netshort>`, `<offset>: <netlong>`.  The production for
`<chunk_size>` is missing from the source grammar; like `<offset>` it is a
byte count within a slice of up to ~4MB, so it is modelled as `<netlong>`,
agreeing with the spec's `chunk-size(uint32, network order)`. -/
def buildFileFeedRequest (crid : List Nat) (sliceId offset chunkSize : Nat) :
    List Nat :=
  crid ++ netshort sliceId ++ netlong offset ++ netlong chunkSize

/- ----------------------------------------------------------------
   Result taxonomy
   ---------------------------------------------------------------- -/

/-- Embedded from `src/example/inc/assignment.h` lines 37-39: the result
enum is declared with an empty enumerator list —
`typedef enum { } eAssignmentDownloadResult;` — left for the implementer to
fill (assignment.h lines 24-25). -/
inductive eAssignmentDownloadResultSrc : Type

instance : Fintype eAssignmentDownloadResultSrc :=
  ⟨∅, fun x => nomatch x⟩

/-- Modelled from the spec: the source declares `eAssignmentDownloadResult`
empty, and spec.md section 7 fixes the taxonomy of terminal results the
implementer is to fill in: `Success`, `DeadlineExceeded`, `NoNodesAvailable`,
`StorageFailure`, `InvalidInput`. -/
inductive eAssignmentDownloadResult : Type
  | Success
  | DeadlineExceeded
  | NoNodesAvailable
  | StorageFailure
  | InvalidInput
  deriving DecidableEq, Repr, Fintype

/- ----------------------------------------------------------------
   ChunkPlan (modelled from the spec, section 4.1)
   ---------------------------------------------------------------- -/

/-- A `[offset, offset+length)` window within a slice's byte space
(spec.md section 3, ChunkRange). -/
structure ChunkRange where
  offset : Nat
  length : Nat
  deriving DecidableEq, Repr

/-- Class of a chunk range at an instant (spec.md section 3): pending
(not yet requested), in-flight (requested from a node, awaiting response or
timeout), or complete (data received and stored). -/
inductive ChunkStatus : Type
  | pending
  | inflight (node : Nat)
  | complete
  deriving DecidableEq, Repr

/-- `true` exactly on in-flight statuses. -/
def ChunkStatus.isInflight : ChunkStatus → Bool
  | .inflight _ => true
  | _ => false

/-- Split the remaining `rem` bytes starting at offset `off` into chunks of
at most `maxChunk` bytes.  The fuel argument (first `Nat`) only bounds the
recursion; `rem` itself is enough fuel whenever `0 < maxChunk`. -/
def splitRangesAux (maxChunk : Nat) : Nat → Nat → Nat → List ChunkRange
  | 0, _, _ => []
  | fuel + 1, off, rem =>
    if rem = 0 then []
    else
      ⟨off, min maxChunk rem⟩ ::
        splitRangesAux maxChunk fuel (off + min maxChunk rem)
          (rem - min maxChunk rem)

/-- Modelled from the spec: `ChunkPlan.create(slice, maxChunkSize)` splits
`[0, sliceSize)` into contiguous ranges no larger than `maxChunkSize`
(spec.md section 4.1), full-sized chunks first and a final truncated
chunk. -/
def ChunkPlan.createRanges (sliceSize maxChunk : Nat) : List ChunkRange :=
  splitRangesAux maxChunk sliceSize 0 sliceSize

/-- Modelled from the spec: the ChunkPlan tracks every range of the slice
together with its current class (spec.md sections 3 and 4.1). -/
structure ChunkPlan where
  sliceSize : Nat
  chunks : List (ChunkRange × ChunkStatus)
  deriving DecidableEq, Repr

/-- Modelled from the spec: `create(slice, maxChunkSize) -> plan`
(spec.md section 4.1); every range starts out pending. -/
def ChunkPlan.create (sliceSize maxChunk : Nat) : ChunkPlan :=
  ⟨sliceSize, (ChunkPlan.createRanges sliceSize maxChunk).map (⟨·, .pending⟩)⟩

/-- Modelled from the spec: `nextPendingChunk() -> Option<ChunkRange>`,
deterministic left-to-right order (spec.md section 4.1). -/
def ChunkPlan.nextPendingChunk (p : ChunkPlan) : Option ChunkRange :=
  (p.chunks.find? (fun c => c.2 = .pending)).map Prod.fst

/-- Update the status of the entry holding range `r` when its current status
satisfies `ok`; helper shared by the three mark operations. -/
def ChunkPlan.setStatus (p : ChunkPlan) (r : ChunkRange)
    (ok : ChunkStatus → Bool) (st : ChunkStatus) : ChunkPlan :=
  ⟨p.sliceSize,
   p.chunks.map (fun c => if c.1 = r ∧ ok c.2 then (c.1, st) else c)⟩

/-- Modelled from the spec: `markInFlight(range, node, deadline)`
(spec.md section 4.1) — a pending range becomes in-flight at `node`. -/
def ChunkPlan.markInFlight (p : ChunkPlan) (r : ChunkRange) (node : Nat) :
    ChunkPlan :=
  p.setStatus r (fun st => st = .pending) (.inflight node)

/-- Modelled from the spec: `markComplete(range, bytes)`
(spec.md section 4.1) — an in-flight range becomes complete. -/
def ChunkPlan.markComplete (p : ChunkPlan) (r : ChunkRange) : ChunkPlan :=
  p.setStatus r ChunkStatus.isInflight .complete

/-- Modelled from the spec: `markFailed(range)` (spec.md section 4.1) — an
in-flight range moves back to pending so it can be re-routed. -/
def ChunkPlan.markFailed (p : ChunkPlan) (r : ChunkRange) : ChunkPlan :=
  p.setStatus r ChunkStatus.isInflight .pending

/-- Modelled from the spec: `isComplete() -> bool` (spec.md section 4.1). -/
def ChunkPlan.isComplete (p : ChunkPlan) : Bool :=
  p.chunks.all (fun c => c.2 = .complete)

/- Coverage predicates used to state the partition invariant. -/

/-- The ranges `rs` are consecutive starting at `start`: each range begins
where the previous one ended. -/
def chainedFrom : Nat → List ChunkRange → Bool
  | _, [] => true
  | start, r :: rs => r.offset == start && chainedFrom (start + r.length) rs

/-- Total number of bytes covered by the ranges. -/
def sumLengths (rs : List ChunkRange) : Nat :=
  (rs.map ChunkRange.length).sum

/-- Byte `b` lies inside range `r`. -/
def inRange (r : ChunkRange) (b : Nat) : Bool :=
  r.offset ≤ b && b < r.offset + r.length

/- ----------------------------------------------------------------
   u_list.cc : list_popFront
   ---------------------------------------------------------------- -/

/-- A C `sList*` value: `none` is a NULL pointer, `some elems` a list object
holding the data pointers `elems` (head first), as laid out by `u_list.h`
lines 47-66.  Data pointers are modelled as naturals. -/
abbrev CList : Type := Option (List Nat)

/-- `list_popFront` as documented in `u_list.h` lines 106-110 and in the
comment of `u_list.cc` lines 38-41: removes the head element from `l` and
returns it; returns NULL if there are no elements in the list, or if `l` is
NULL.  Result is (returned data pointer, list state after the call). -/
def list_popFront : CList → Option Nat × CList
  | none => (none, none)
  | some [] => (none, some [])
  | some (d :: t) => (some d, some t)

/-- Embedded from `u_list.cc` lines 42-44: the body of `list_popFront` is
empty (`{ }`), so the call performs no statement — the list object is left
exactly as it was and no element is removed.  (The C return value of the
empty body is unspecified; only the list state, which the empty body
provably leaves unchanged, is modelled.) -/
def list_popFront_stub (l : CList) : CList := l

/- ----------------------------------------------------------------
   SliceDownloadSession (modelled from the spec, sections 3-5 and 7;
   the orchestrator is declared in assignment.h but not implemented
   in the repository sources)
   ---------------------------------------------------------------- -/

/-- Embedded from `u_transport.h` lines 17-20: a slice descriptor, holding
`uint16_t sliceId` and `uint32_t sliceSize`. -/
structure sSlice where
  sliceId : Nat
  sliceSize : Nat
  deriving DecidableEq, Repr

/-- Modelled from the spec: a `NodeCandidate` together with its
`ConnectionSlot` (spec.md section 3) — node identifier, usage class
(regular or fallback), liveness (false once `markNodeDead` ran), lazy
connection state, and the slot's at-most-one in-flight request.
`outstanding` instruments the number of unanswered requests on the slot
(spec.md section 8, slot-occupancy property). -/
structure NodeSt where
  nid : Nat
  isFallback : Bool
  alive : Bool
  connected : Bool
  outstanding : Nat
  inFlight : Option ChunkRange
  deriving DecidableEq, Repr

/-- A chunk request issued on a connection: target node and requested
range. -/
structure Request where
  node : Nat
  range : ChunkRange
  deriving DecidableEq, Repr

/-- An `<extended_info>` entry of a `FILE_FEED_RESPONSE`
(u_protocol.h lines 8-26): id byte plus payload bytes. -/
structure ExtInfoEntry where
  id : Nat
  payload : List Nat
  deriving DecidableEq, Repr

/-- Modelled from the spec: the asynchronous events a running session
reacts to (spec.md section 4.5): a chunk response from a node (with the
storage collaborator's verdict and the response's extended-info entries), a
per-chunk timer expiry, a connection-level error, and the global deadline
timer firing. -/
inductive SessionEvent : Type
  | response (node : Nat) (storeOk : Bool) (ext : List ExtInfoEntry)
  | chunkTimeout (node : Nat)
  | connError (node : Nat) (errType : Nat)
  | globalTimeout
  deriving DecidableEq, Repr

/-- Modelled from the spec: the `DownloadSession` aggregate
(spec.md section 3): slice descriptor, ChunkPlan, ordered node pool
(regular first, fallback last), log of issued requests, number of
completion-callback invocations so far, and the terminal result once one
is reached (`none` while the session is live). -/
structure Session where
  slice : sSlice
  plan : ChunkPlan
  nodes : List NodeSt
  issued : List Request
  callbackCount : Nat
  res : Option eAssignmentDownloadResult
  deriving DecidableEq, Repr

/-- A session is terminal once a result has been delivered. -/
def Session.terminal (s : Session) : Bool := s.res.isSome

/-- Modelled from the spec: the unique terminal transition
(spec.md sections 3 and 4.5): record the result, invoke the completion
callback once, release every connection and abandon every outstanding
request. -/
def Session.finish (s : Session) (r : eAssignmentDownloadResult) : Session :=
  { s with
    res := some r
    callbackCount := s.callbackCount + 1
    nodes := s.nodes.map (fun n =>
      { n with connected := false, outstanding := 0, inFlight := none }) }

/-- Modelled from the spec: `nextAvailableNode` (spec.md section 4.2) — the
first candidate, in regular-before-fallback order, that is alive and whose
slot is free.  The DeadlineBudget is abstracted away: fallback nodes become
eligible exactly when no earlier (regular) candidate is available, which
realises the regular-pool-exhausted arm of the spec's eligibility rule. -/
def nextAvailableNode (nodes : List NodeSt) : Option NodeSt :=
  nodes.find? (fun n => n.alive && n.outstanding == 0)

/-- Modelled from the spec: `issueRequest` (spec.md section 4.3) — pair
chunk `r` with node `n`: mark the range in-flight, occupy the node's slot
(connecting lazily on first use), and log the issued request. -/
def Session.issue (s : Session) (n : NodeSt) (r : ChunkRange) : Session :=
  { s with
    plan := s.plan.markInFlight r n.nid
    nodes := s.nodes.map (fun m =>
      if m.nid = n.nid then
        { m with connected := true, outstanding := m.outstanding + 1,
                 inFlight := some r }
      else m)
    issued := s.issued ++ [⟨n.nid, r⟩] }

/-- Modelled from the spec: the `SCHEDULING` loop body (spec.md
section 4.5) — while a pending chunk and an available node exist, issue the
request.  The fuel argument bounds the loop; `Session.schedule` passes the
number of pending chunks, which the loop strictly decreases. -/
def scheduleLoop : Nat → Session → Session
  | 0, s => s
  | fuel + 1, s =>
    match s.plan.nextPendingChunk, nextAvailableNode s.nodes with
    | some r, some n => scheduleLoop fuel (s.issue n r)
    | _, _ => s

/-- Number of pending chunks of a plan. -/
def pendingCount (p : ChunkPlan) : Nat :=
  p.chunks.countP (fun c => c.2 = .pending)

/-- Modelled from the spec: the `SCHEDULING` state (spec.md section 4.5). -/
def Session.schedule (s : Session) : Session :=
  scheduleLoop (pendingCount s.plan) s

/-- Free a node's slot after its in-flight request was answered or failed
(spec.md section 4.2, `releaseNode`). -/
def releaseSlot (nodes : List NodeSt) (nid : Nat) : List NodeSt :=
  nodes.map (fun m =>
    if m.nid = nid then
      { m with outstanding := m.outstanding - 1, inFlight := none }
    else m)

/-- Modelled from the spec: `markNodeDead` (spec.md section 4.2) — remove a
node from future selection for the rest of the session, dropping its
connection and abandoning its in-flight request. -/
def killNode (nodes : List NodeSt) (nid : Nat) : List NodeSt :=
  nodes.map (fun m =>
    if m.nid = nid then
      { m with alive := false, connected := false,
               outstanding := m.outstanding - 1, inFlight := none }
    else m)

/-- Does the extended-info list of a response carry entry id `i`? -/
def hasExtInfo (ext : List ExtInfoEntry) (i : Nat) : Bool :=
  ext.any (fun e => e.id = i)

/-- All candidates are dead: the node pool is exhausted
(spec.md section 4.5, transition to `FAILED`). -/
def noNodesLeft (s : Session) : Bool := s.nodes.all (fun n => !n.alive)

/-- Look a node up by identifier. -/
def Session.findNode (s : Session) (nid : Nat) : Option NodeSt :=
  s.nodes.find? (fun n => n.nid = nid)

/-- After an event that may have emptied the pool: fail with
`NoNodesAvailable` when every candidate is dead while chunks are still
unfinished, otherwise resume scheduling (spec.md section 4.5).  In this
model the check runs whenever a node was marked dead; a dead node can only
leave behind pending or complete chunks, so an exhausted pool here always
has chunks still pending. -/
def Session.checkPool (s : Session) : Session :=
  if noNodesLeft s then s.finish .NoNodesAvailable else s.schedule

/-- After a stored response: terminate with `Success` the instant
`ChunkPlan.isComplete()` becomes true, otherwise resume scheduling
(spec.md section 4.5). -/
def Session.checkDone (s : Session) : Session :=
  if s.plan.isComplete then s.finish .Success else s.schedule

/-- Modelled from the spec: the event-driven transition function of the
session state machine (spec.md sections 4.5, 5 and 7).  A terminal session
absorbs every event (the session was destroyed at its terminal transition).
Otherwise: the global deadline drives the session to `DeadlineExceeded`; a
response carrying the no-slice-available extended info marks the node dead
and re-queues the chunk; a node-busy response re-queues the chunk but keeps
the node eligible for retry; a stored response completes the chunk and, if
the plan is complete, finishes with `Success`; a storage rejection finishes
with `StorageFailure`; a per-chunk timeout re-queues the chunk; a
connection-level error marks the node dead.  Whenever the pool is
exhausted with chunks still pending the session fails with
`NoNodesAvailable`; otherwise scheduling resumes. -/
def Session.step (s : Session) (e : SessionEvent) : Session :=
  if s.terminal then s
  else
    match e with
    | .globalTimeout => s.finish .DeadlineExceeded
    | .response nid storeOk ext =>
      match s.findNode nid with
      | none => s
      | some n =>
        match n.inFlight with
        | none => s
        | some r =>
          if hasExtInfo ext FILE_FEED_EXTENDED_INFO_NO_SLICE_AVAILABLE_ID then
            Session.checkPool
              { s with plan := s.plan.markFailed r,
                       nodes := killNode s.nodes nid }
          else if hasExtInfo ext PULL_PROT_EXTENDED_INFO_NODE_BUSY_ID then
            Session.schedule
              { s with plan := s.plan.markFailed r,
                       nodes := releaseSlot s.nodes nid }
          else if storeOk then
            Session.checkDone
              { s with plan := s.plan.markComplete r,
                       nodes := releaseSlot s.nodes nid }
          else
            Session.finish
              { s with nodes := releaseSlot s.nodes nid } .StorageFailure
    | .chunkTimeout nid =>
      match s.findNode nid with
      | none => s
      | some n =>
        match n.inFlight with
        | none => s
        | some r =>
          Session.schedule
            { s with plan := s.plan.markFailed r,
                     nodes := releaseSlot s.nodes nid }
    | .connError nid _ =>
      match s.findNode nid with
      | none => s
      | some n =>
        match n.inFlight with
        | none =>
          Session.checkPool { s with nodes := killNode s.nodes nid }
        | some r =>
          Session.checkPool
            { s with plan := s.plan.markFailed r,
                     nodes := killNode s.nodes nid }

/-- Run a session over a list of inbound events, one atomic transition per
event (spec.md section 5). -/
def Session.run (s : Session) (es : List SessionEvent) : Session :=
  es.foldl Session.step s

/-- Modelled from the spec: `NodePool.populate` (spec.md section 4.2) —
build candidates from the discovery collaborator's two lists, regular
before fallback, deduplicated by node identity with a node present in both
lists classed regular. -/
def mkNodes (regular fallback : List Nat) : List NodeSt :=
  (regular.dedup.map (fun i => ⟨i, false, true, false, 0, none⟩)) ++
  ((fallback.dedup.filter (fun i => !(decide (i ∈ regular)))).map
    (fun i => ⟨i, true, true, false, 0, none⟩))

/-- Modelled from the spec: the `INITIALIZING` state (spec.md
section 4.5) — build the ChunkPlan for the slice with the protocol's
maximum chunk size, populate the node pool, then either fail immediately
with `NoNodesAvailable` when the pool is empty after discovery, or start
scheduling. -/
def baseSession (slice : sSlice) (regular fallback : List Nat) : Session :=
  ⟨slice, ChunkPlan.create slice.sliceSize MAX_FILE_FEED_CHUNK_SIZE,
   mkNodes regular fallback, [], 0, none⟩

def initSession (slice : sSlice) (regular fallback : List Nat) : Session :=
  if (baseSession slice regular fallback).nodes.isEmpty then
    (baseSession slice regular fallback).finish .NoNodesAvailable
  else (baseSession slice regular fallback).schedule

/-- Modelled from the spec: the caller-facing entry point
`assignment_downloadSlice` declared in `assignment.h` lines 41-58 and
specified in spec.md sections 6 and 7.  The slice descriptor is an
`Option` (`none` models a NULL `slice_p`); the discovery collaborator's two
node lists stand in for the `transport_p` context.  A malformed descriptor
(NULL, or an empty byte range) or a non-positive deadline is rejected
synchronously with `-22` (`-EINVAL`) and no session is created; otherwise
the call returns `0` and the accepted session, whose final result is
delivered only through the completion callback counted by
`callbackCount`. -/
def assignment_downloadSlice (slice_p : Option sSlice)
    (regular fallback : List Nat) (relativeDeadline : Int) :
    Int × Option Session :=
  match slice_p with
  | none => (-22, none)
  | some sl =>
    if 0 < sl.sliceSize ∧ 0 < relativeDeadline then
      (0, some (initSession sl regular fallback))
    else (-22, none)

/-- Session states reachable from some accepted invocation by a sequence of
inbound events. -/
inductive Session.Reachable : Session → Prop
  | init (slice : sSlice) (regular fallback : List Nat) :
      Session.Reachable (initSession slice regular fallback)
  | step (s : Session) (e : SessionEvent) :
      Session.Reachable s → Session.Reachable (s.step e)

/-- Plan states reachable through the ChunkPlan contract
(spec.md section 4.1): created with a positive maximum chunk size, then any
sequence of mark operations. -/
inductive ChunkPlan.Reachable : ChunkPlan → Prop
  | create (sliceSize maxChunk : Nat) (h : 0 < maxChunk) :
      ChunkPlan.Reachable (ChunkPlan.create sliceSize maxChunk)
  | markInFlight (p : ChunkPlan) (r : ChunkRange) (node : Nat) :
      ChunkPlan.Reachable p → ChunkPlan.Reachable (p.markInFlight r node)
  | markComplete (p : ChunkPlan) (r : ChunkRange) :
      ChunkPlan.Reachable p → ChunkPlan.Reachable (p.markComplete r)
  | markFailed (p : ChunkPlan) (r : ChunkRange) :
      ChunkPlan.Reachable p → ChunkPlan.Reachable (p.markFailed r)

/- ----------------------------------------------------------------
   ChunkPlan lemmas
   ---------------------------------------------------------------- -/

theorem sumLengths_nil : sumLengths [] = 0 := rfl

theorem sumLengths_cons (a : ChunkRange) (t : List ChunkRange) :
    sumLengths (a :: t) = a.length + sumLengths t := by
  simp [sumLengths]

theorem splitRangesAux_length_le (m : Nat) :
    ∀ fuel off rem r, r ∈ splitRangesAux m fuel off rem → r.length ≤ m := by
  intro fuel
  induction fuel with
  | zero => intro off rem r hr; simp [splitRangesAux] at hr
  | succ fuel ih =>
    intro off rem r hr
    by_cases hrem : rem = 0
    · simp [splitRangesAux, hrem] at hr
    · simp only [splitRangesAux, if_neg hrem, List.mem_cons] at hr
      rcases hr with rfl | hr
      · exact Nat.min_le_left _ _
      · exact ih _ _ _ hr

theorem splitRangesAux_chain (m : Nat) (hm : 0 < m) :
    ∀ fuel off rem, rem ≤ fuel →
      chainedFrom off (splitRangesAux m fuel off rem) = true ∧
      sumLengths (splitRangesAux m fuel off rem) = rem := by
  intro fuel
  induction fuel with
  | zero =>
    intro off rem h
    have : rem = 0 := Nat.le_zero.mp h
    subst this
    simp [splitRangesAux, chainedFrom, sumLengths_nil]
  | succ fuel ih =>
    intro off rem h
    by_cases hrem : rem = 0
    · subst hrem; simp [splitRangesAux, chainedFrom, sumLengths_nil]
    · have hlen : 0 < min m rem :=
        lt_min hm (Nat.pos_of_ne_zero hrem)
      have hle : min m rem ≤ rem := Nat.min_le_right _ _
      have hrec := ih (off + min m rem) (rem - min m rem) (by omega)
      simp only [splitRangesAux, if_neg hrem]
      constructor
      · simp [chainedFrom, hrec.1]
      · rw [sumLengths_cons, hrec.2]
        show min m rem + (rem - min m rem) = rem
        omega

theorem createRanges_chain (sliceSize maxChunk : Nat) (hm : 0 < maxChunk) :
    chainedFrom 0 (ChunkPlan.createRanges sliceSize maxChunk) = true ∧
    sumLengths (ChunkPlan.createRanges sliceSize maxChunk) = sliceSize :=
  splitRangesAux_chain maxChunk hm sliceSize 0 sliceSize (Nat.le_refl _)

theorem createRanges_length_le (sliceSize maxChunk : Nat) (r : ChunkRange)
    (hr : r ∈ ChunkPlan.createRanges sliceSize maxChunk) :
    r.length ≤ maxChunk :=
  splitRangesAux_length_le maxChunk sliceSize 0 sliceSize r hr

theorem chainedFrom_bounds :
    ∀ (rs : List ChunkRange) (s : Nat), chainedFrom s rs = true →
      ∀ r ∈ rs, s ≤ r.offset ∧ r.offset + r.length ≤ s + sumLengths rs := by
  intro rs
  induction rs with
  | nil => intro s _ r hr; simp at hr
  | cons a t ih =>
    intro s h r hr
    simp only [chainedFrom, Bool.and_eq_true, beq_iff_eq] at h
    rcases h with ⟨ha, ht⟩
    rw [sumLengths_cons]
    rcases List.mem_cons.mp hr with rfl | hr
    · omega
    · have := ih (s + a.length) ht r hr
      omega

theorem chainedFrom_countP_one :
    ∀ (rs : List ChunkRange) (s b : Nat), chainedFrom s rs = true →
      s ≤ b → b < s + sumLengths rs →
      rs.countP (fun r => inRange r b) = 1 := by
  intro rs
  induction rs with
  | nil => intro s b _ h1 h2; rw [sumLengths_nil] at h2; omega
  | cons a t ih =>
    intro s b h hb1 hb2
    simp only [chainedFrom, Bool.and_eq_true, beq_iff_eq] at h
    rcases h with ⟨ha, ht⟩
    rw [sumLengths_cons] at hb2
    by_cases hcov : b < a.offset + a.length
    · rw [List.countP_cons_of_pos]
      · have hzero : t.countP (fun r => inRange r b) = 0 := by
          rw [List.countP_eq_zero]
          intro r hr
          have := chainedFrom_bounds t (s + a.length) ht r hr
          simp only [inRange, Bool.and_eq_true, decide_eq_true_eq, not_and,
            Nat.not_lt]
          omega
        omega
      · simp only [inRange, Bool.and_eq_true, decide_eq_true_eq]
        omega
    · rw [List.countP_cons_of_neg]
      · exact ih (s + a.length) b ht (by omega) (by omega)
      · simp only [inRange, Bool.and_eq_true, decide_eq_true_eq, not_and,
          Nat.not_lt]
        omega

theorem chainedFrom_countP_zero (rs : List ChunkRange) (s b : Nat)
    (h : chainedFrom s rs = true)
    (hout : b < s ∨ s + sumLengths rs ≤ b) :
    rs.countP (fun r => inRange r b) = 0 := by
  rw [List.countP_eq_zero]
  intro r hr
  have := chainedFrom_bounds rs s h r hr
  simp only [inRange, Bool.and_eq_true, decide_eq_true_eq, not_and,
    Nat.not_lt]
  omega

theorem two_le_countP {α : Type} {p : α → Bool} :
    ∀ {l : List α} {a b : α}, a ∈ l → b ∈ l → a ≠ b →
      p a = true → p b = true → 2 ≤ l.countP p := by
  intro l
  induction l with
  | nil => intro a b ha; simp at ha
  | cons x t ih =>
    intro a b ha hb hne hpa hpb
    rcases List.mem_cons.mp ha with rfl | ha2
    · rcases List.mem_cons.mp hb with rfl | hb2
      · exact absurd rfl hne
      · rw [List.countP_cons_of_pos _ _ hpa]
        have : 0 < t.countP p := List.countP_pos_iff.mpr ⟨b, hb2, hpb⟩
        omega
    · rcases List.mem_cons.mp hb with rfl | hb2
      · rw [List.countP_cons_of_pos _ _ hpb]
        have : 0 < t.countP p := List.countP_pos_iff.mpr ⟨a, ha2, hpa⟩
        omega
      · have := ih ha2 hb2 hne hpa hpb
        rw [List.countP_cons]
        omega

/-- The partition backbone of a plan: its ranges, in order, tile the full
slice byte range `[0, sliceSize)`. -/
def PlanCover (p : ChunkPlan) : Prop :=
  chainedFrom 0 (p.chunks.map Prod.fst) = true ∧
  sumLengths (p.chunks.map Prod.fst) = p.sliceSize

theorem setStatus_map_fst (p : ChunkPlan) (r : ChunkRange)
    (ok : ChunkStatus → Bool) (st : ChunkStatus) :
    (p.setStatus r ok st).chunks.map Prod.fst = p.chunks.map Prod.fst := by
  simp only [ChunkPlan.setStatus, List.map_map]
  apply List.map_congr_left
  intro c _
  by_cases h : c.1 = r ∧ ok c.2
  · simp [h]
  · simp [h]

theorem setStatus_sliceSize (p : ChunkPlan) (r : ChunkRange)
    (ok : ChunkStatus → Bool) (st : ChunkStatus) :
    (p.setStatus r ok st).sliceSize = p.sliceSize := rfl

theorem reachable_planCover (p : ChunkPlan) (h : ChunkPlan.Reachable p) :
    PlanCover p := by
  induction h with
  | create sliceSize maxChunk hm =>
    have h := createRanges_chain sliceSize maxChunk hm
    have hmap : (ChunkPlan.create sliceSize maxChunk).chunks.map Prod.fst =
        ChunkPlan.createRanges sliceSize maxChunk := by
      simp only [ChunkPlan.create, List.map_map]
      have hc : (Prod.fst ∘ fun x : ChunkRange => (x, ChunkStatus.pending)) =
          id := rfl
      rw [hc, List.map_id]
    exact ⟨by rw [hmap]; exact h.1, by rw [hmap]; exact h.2⟩
  | markInFlight p r node _ ih =>
    exact ⟨by rw [ChunkPlan.markInFlight, setStatus_map_fst]; exact ih.1,
           by rw [ChunkPlan.markInFlight, setStatus_map_fst,
                  setStatus_sliceSize]; exact ih.2⟩
  | markComplete p r _ ih =>
    exact ⟨by rw [ChunkPlan.markComplete, setStatus_map_fst]; exact ih.1,
           by rw [ChunkPlan.markComplete, setStatus_map_fst,
                  setStatus_sliceSize]; exact ih.2⟩
  | markFailed p r _ ih =>
    exact ⟨by rw [ChunkPlan.markFailed, setStatus_map_fst]; exact ih.1,
           by rw [ChunkPlan.markFailed, setStatus_map_fst,
                  setStatus_sliceSize]; exact ih.2⟩

/- Class membership at byte granularity, used to state the partition
invariant of spec.md section 3. -/

/-- `true` exactly on the pending status. -/
def ChunkStatus.isPending : ChunkStatus → Bool
  | .pending => true
  | _ => false

/-- `true` exactly on the complete status. -/
def ChunkStatus.isDone : ChunkStatus → Bool
  | .complete => true
  | _ => false

/-- Byte `b` belongs to some range of the plan whose status satisfies
`cl`. -/
def ChunkPlan.inClass (p : ChunkPlan) (cl : ChunkStatus → Bool) (b : Nat) :
    Bool :=
  p.chunks.any (fun c => cl c.2 && inRange c.1 b)

/-- Byte `b` belongs to the pending class of the plan. -/
def ChunkPlan.inPendingClass (p : ChunkPlan) (b : Nat) : Bool :=
  p.inClass ChunkStatus.isPending b

/-- Byte `b` belongs to the in-flight class of the plan. -/
def ChunkPlan.inInflightClass (p : ChunkPlan) (b : Nat) : Bool :=
  p.inClass ChunkStatus.isInflight b

/-- Byte `b` belongs to the complete class of the plan. -/
def ChunkPlan.inCompleteClass (p : ChunkPlan) (b : Nat) : Bool :=
  p.inClass ChunkStatus.isDone b

theorem countP_chunks_eq (p : ChunkPlan) (b : Nat) :
    p.chunks.countP (fun c => inRange c.1 b) =
    (p.chunks.map Prod.fst).countP (fun r => inRange r b) := by
  rw [List.countP_map]
  rfl

theorem planCover_countP (p : ChunkPlan) (hc : PlanCover p) (b : Nat) :
    p.chunks.countP (fun c => inRange c.1 b) =
      if b < p.sliceSize then 1 else 0 := by
  rw [countP_chunks_eq]
  by_cases hb : b < p.sliceSize
  · rw [if_pos hb]
    exact chainedFrom_countP_one _ 0 b hc.1 (Nat.zero_le _)
      (by rw [hc.2]; omega)
  · rw [if_neg hb]
    exact chainedFrom_countP_zero _ 0 b hc.1 (Or.inr (by rw [hc.2]; omega))

theorem inClass_not_both (p : ChunkPlan) (hc : PlanCover p) (b : Nat)
    (cl1 cl2 : ChunkStatus → Bool)
    (hcl : ∀ st, ¬(cl1 st = true ∧ cl2 st = true)) :
    ¬(p.inClass cl1 b = true ∧ p.inClass cl2 b = true) := by
  rintro ⟨h1, h2⟩
  simp only [ChunkPlan.inClass, List.any_eq_true, Bool.and_eq_true] at h1 h2
  obtain ⟨c1, hm1, hcl1, hr1⟩ := h1
  obtain ⟨c2, hm2, hcl2, hr2⟩ := h2
  have hne : c1 ≠ c2 := by
    intro he
    exact hcl c1.2 ⟨hcl1, by rw [he]; exact hcl2⟩
  have h2le :=
    two_le_countP (p := fun c : ChunkRange × ChunkStatus => inRange c.1 b)
      hm1 hm2 hne hr1 hr2
  have hcnt := planCover_countP p hc b
  by_cases hb : b < p.sliceSize
  · rw [if_pos hb] at hcnt; omega
  · rw [if_neg hb] at hcnt; omega

theorem inClass_cover (p : ChunkPlan) (hc : PlanCover p) (b : Nat)
    (hb : b < p.sliceSize) :
    p.inPendingClass b = true ∨ p.inInflightClass b = true ∨
      p.inCompleteClass b = true := by
  have hcnt := planCover_countP p hc b
  rw [if_pos hb] at hcnt
  have hpos : 0 < p.chunks.countP (fun c => inRange c.1 b) := by omega
  obtain ⟨c, hm, hr⟩ := List.countP_pos_iff.mp hpos
  rcases hst : c.2 with _ | n | _
  · refine Or.inl ?_
    simp only [ChunkPlan.inPendingClass, ChunkPlan.inClass, List.any_eq_true,
      Bool.and_eq_true]
    exact ⟨c, hm, by rw [hst]; rfl, hr⟩
  · refine Or.inr (Or.inl ?_)
    simp only [ChunkPlan.inInflightClass, ChunkPlan.inClass, List.any_eq_true,
      Bool.and_eq_true]
    exact ⟨c, hm, by rw [hst]; rfl, hr⟩
  · refine Or.inr (Or.inr ?_)
    simp only [ChunkPlan.inCompleteClass, ChunkPlan.inClass, List.any_eq_true,
      Bool.and_eq_true]
    exact ⟨c, hm, by rw [hst]; rfl, hr⟩

theorem inClass_lt (p : ChunkPlan) (hc : PlanCover p) (b : Nat)
    (cl : ChunkStatus → Bool) (h : p.inClass cl b = true) :
    b < p.sliceSize := by
  by_contra hb
  have hcnt := planCover_countP p hc b
  rw [if_neg hb] at hcnt
  simp only [ChunkPlan.inClass, List.any_eq_true, Bool.and_eq_true] at h
  obtain ⟨c, hm, _, hr⟩ := h
  have : 0 < p.chunks.countP (fun c => inRange c.1 b) :=
    List.countP_pos_iff.mpr ⟨c, hm, hr⟩
  omega

/- ----------------------------------------------------------------
   Session lemmas
   ---------------------------------------------------------------- -/

/-- Every pool entry with identifier `nid` is dead. -/
def deadIn (ns : List NodeSt) (nid : Nat) : Prop :=
  ∀ m ∈ ns, m.nid = nid → m.alive = false

/-- Identifiers of the live candidates of a pool. -/
def aliveIds (ns : List NodeSt) : List Nat :=
  (ns.filter (fun n => n.alive)).map NodeSt.nid

theorem mem_aliveIds {ns : List NodeSt} {x : Nat} :
    x ∈ aliveIds ns ↔ ∃ m, m ∈ ns ∧ m.alive = true ∧ m.nid = x := by
  simp [aliveIds, List.mem_map, List.mem_filter, and_assoc]

theorem not_mem_aliveIds {ns : List NodeSt} {nid : Nat}
    (h : deadIn ns nid) : nid ∉ aliveIds ns := by
  rw [mem_aliveIds]
  rintro ⟨m, hm, halive, rfl⟩
  rw [h m hm rfl] at halive
  exact Bool.false_ne_true halive

/-- One evolution step of the node pool outside scheduling: entries are
rewritten pointwise, keeping identifiers, never resurrecting a dead node and
never increasing a slot's outstanding count. -/
def NodesEvolve (ns ns2 : List NodeSt) : Prop :=
  ∃ f : NodeSt → NodeSt, ns2 = ns.map f ∧
    (∀ m, (f m).nid = m.nid) ∧
    (∀ m, (f m).alive = true → m.alive = true) ∧
    (∀ m, (f m).outstanding ≤ m.outstanding)

theorem mapNodes_nid (f : NodeSt → NodeSt) (hf : ∀ m, (f m).nid = m.nid)
    (ns : List NodeSt) :
    (ns.map f).map NodeSt.nid = ns.map NodeSt.nid := by
  rw [List.map_map]
  exact List.map_congr_left (fun m _ => hf m)

theorem nodesEvolve_id (ns : List NodeSt) : NodesEvolve ns ns :=
  ⟨id, by simp, fun _ => rfl, fun _ h => h, fun _ => Nat.le_refl _⟩

theorem nodesEvolve_releaseSlot (ns : List NodeSt) (nid : Nat) :
    NodesEvolve ns (releaseSlot ns nid) := by
  refine ⟨_, rfl, ?_, ?_, ?_⟩ <;> intro m <;> by_cases h : m.nid = nid <;>
    simp [h]

theorem nodesEvolve_killNode (ns : List NodeSt) (nid : Nat) :
    NodesEvolve ns (killNode ns nid) := by
  refine ⟨_, rfl, ?_, ?_, ?_⟩ <;> intro m <;> by_cases h : m.nid = nid <;>
    simp [h]

theorem nodesEvolve_finish (s : Session) (r : eAssignmentDownloadResult) :
    NodesEvolve s.nodes (s.finish r).nodes := by
  refine ⟨_, rfl, ?_, ?_, ?_⟩ <;> intro m <;> simp

theorem NodesEvolve.preserves_nodup {ns ns2 : List NodeSt}
    (h : NodesEvolve ns ns2) (hnd : (ns.map NodeSt.nid).Nodup) :
    (ns2.map NodeSt.nid).Nodup := by
  obtain ⟨f, rfl, hn, _, _⟩ := h
  rw [mapNodes_nid f hn]
  exact hnd

theorem NodesEvolve.preserves_out_le {ns ns2 : List NodeSt}
    (h : NodesEvolve ns ns2) (hle : ∀ n ∈ ns, n.outstanding ≤ 1) :
    ∀ n ∈ ns2, n.outstanding ≤ 1 := by
  obtain ⟨f, rfl, _, _, ho⟩ := h
  intro n hn
  obtain ⟨m, hm, rfl⟩ := List.mem_map.mp hn
  exact Nat.le_trans (ho m) (hle m hm)

theorem NodesEvolve.aliveIds_subset {ns ns2 : List NodeSt}
    (h : NodesEvolve ns ns2) : ∀ x ∈ aliveIds ns2, x ∈ aliveIds ns := by
  obtain ⟨f, rfl, hn, ha, _⟩ := h
  intro x hx
  obtain ⟨m2, hm2, halive, rfl⟩ := mem_aliveIds.mp hx
  obtain ⟨m, hm, rfl⟩ := List.mem_map.mp hm2
  exact mem_aliveIds.mpr ⟨m, hm, ha m halive, (hn m).symm⟩

theorem NodesEvolve.preserves_deadIn {ns ns2 : List NodeSt} {nid : Nat}
    (h : NodesEvolve ns ns2) (hd : deadIn ns nid) : deadIn ns2 nid := by
  obtain ⟨f, rfl, hn, ha, _⟩ := h
  intro m2 hm2 hid
  obtain ⟨m, hm, rfl⟩ := List.mem_map.mp hm2
  by_contra hcon
  have halive : (f m).alive = true := by
    cases hfa : (f m).alive
    · exact absurd hfa hcon
    · rfl
  have := hd m hm (by rw [← hn m]; exact hid)
  rw [ha m halive] at this
  exact Bool.noConfusion this

theorem aliveIds_cons (x : NodeSt) (t : List NodeSt) :
    aliveIds (x :: t) =
      if x.alive then x.nid :: aliveIds t else aliveIds t := by
  by_cases hx : x.alive <;> simp [aliveIds, List.filter_cons, hx]

theorem aliveIds_map_eq (f : NodeSt → NodeSt) (hn : ∀ m, (f m).nid = m.nid)
    (ha : ∀ m, (f m).alive = m.alive) :
    ∀ ns : List NodeSt, aliveIds (ns.map f) = aliveIds ns := by
  intro ns
  induction ns with
  | nil => rfl
  | cons x t ih =>
    rw [List.map_cons, aliveIds_cons, aliveIds_cons, ha x, hn x, ih]

theorem killNode_dead (ns : List NodeSt) (nid : Nat) :
    deadIn (killNode ns nid) nid := by
  intro m2 hm2 hid
  simp only [killNode] at hm2
  obtain ⟨m, hm, rfl⟩ := List.mem_map.mp hm2
  by_cases h : m.nid = nid
  · simp [h]
  · simp [h] at hid

theorem deadIn_map (f : NodeSt → NodeSt) (hn : ∀ m, (f m).nid = m.nid)
    (ha : ∀ m, (f m).alive = true → m.alive = true) {ns : List NodeSt}
    {nid : Nat} (h : deadIn ns nid) : deadIn (ns.map f) nid := by
  intro m2 hm2 hid
  obtain ⟨m, hm, rfl⟩ := List.mem_map.mp hm2
  by_contra hcon
  have halive : (f m).alive = true := by
    cases hfa : (f m).alive
    · exact absurd hfa hcon
    · rfl
  have hdead := h m hm (by rw [← hn m]; exact hid)
  rw [ha m halive] at hdead
  exact Bool.noConfusion hdead

theorem releaseSlot_aliveIds (ns : List NodeSt) (nid : Nat) :
    aliveIds (releaseSlot ns nid) = aliveIds ns := by
  refine aliveIds_map_eq _ ?_ ?_ ns <;> intro m <;>
    by_cases h : m.nid = nid <;> simp [h]

theorem issue_aliveIds (s : Session) (n : NodeSt) (r : ChunkRange) :
    aliveIds (s.issue n r).nodes = aliveIds s.nodes := by
  refine aliveIds_map_eq _ ?_ ?_ s.nodes <;> intro m <;>
    by_cases h : m.nid = n.nid <;> simp [h]

theorem issue_deadIn (s : Session) (n : NodeSt) (r : ChunkRange) (nid : Nat)
    (h : deadIn s.nodes nid) : deadIn (s.issue n r).nodes nid := by
  refine deadIn_map _ ?_ ?_ h <;> intro m <;>
    by_cases hm : m.nid = n.nid <;> simp [hm]

theorem nextPendingChunk_mem (p : ChunkPlan) (r : ChunkRange)
    (h : p.nextPendingChunk = some r) : r ∈ p.chunks.map Prod.fst := by
  simp only [ChunkPlan.nextPendingChunk, Option.map_eq_some'] at h
  obtain ⟨c, hc, rfl⟩ := h
  exact List.mem_map_of_mem _ (List.mem_of_find?_eq_some hc)

theorem nextAvailableNode_mem {ns : List NodeSt} {n : NodeSt}
    (h : nextAvailableNode ns = some n) : n ∈ ns :=
  List.mem_of_find?_eq_some h

theorem nextAvailableNode_free {ns : List NodeSt} {n : NodeSt}
    (h : nextAvailableNode ns = some n) :
    n.alive = true ∧ n.outstanding = 0 := by
  have hp := List.find?_some h
  simpa using hp

/-- The inductive invariant of session states: the callback fired at most
once and exactly on terminal states; node identifiers are unique; no slot
holds more than one outstanding request; the plan's ranges are exactly the
ranges created for the slice; and no issued request exceeds the protocol's
chunk bound. -/
structure SessionInv (s : Session) : Prop where
  cb_le : s.callbackCount ≤ 1
  cb_iff : s.res.isSome = true ↔ s.callbackCount = 1
  nodup : (s.nodes.map NodeSt.nid).Nodup
  out_le : ∀ n ∈ s.nodes, n.outstanding ≤ 1
  ranges : s.plan.chunks.map Prod.fst =
    ChunkPlan.createRanges s.slice.sliceSize MAX_FILE_FEED_CHUNK_SIZE
  issued_le : ∀ q ∈ s.issued, q.range.length ≤ MAX_FILE_FEED_CHUNK_SIZE

theorem sessionInv_issue {s : Session} (hinv : SessionInv s) {r : ChunkRange}
    {n : NodeSt} (hr : s.plan.nextPendingChunk = some r)
    (hn : nextAvailableNode s.nodes = some n) :
    SessionInv (s.issue n r) := by
  obtain ⟨halive, hout0⟩ := nextAvailableNode_free hn
  have hmem := nextAvailableNode_mem hn
  refine ⟨hinv.cb_le, hinv.cb_iff, ?_, ?_, ?_, ?_⟩
  · show ((s.nodes.map _).map NodeSt.nid).Nodup
    rw [mapNodes_nid]
    · exact hinv.nodup
    · intro m; by_cases h : m.nid = n.nid <;> simp [h]
  · intro m2 hm2
    simp only [Session.issue] at hm2
    obtain ⟨m, hm, rfl⟩ := List.mem_map.mp hm2
    by_cases h : m.nid = n.nid
    · have hmn : m = n := List.inj_on_of_nodup_map hinv.nodup hm hmem h
      subst hmn
      simp [h, hout0]
    · simp [h]
      exact hinv.out_le m hm
  · show (s.plan.markInFlight r n.nid).chunks.map Prod.fst = _
    rw [ChunkPlan.markInFlight, setStatus_map_fst]
    exact hinv.ranges
  · intro q hq
    simp only [Session.issue, List.mem_append, List.mem_singleton] at hq
    rcases hq with hq | rfl
    · exact hinv.issued_le q hq
    · have hrmem := nextPendingChunk_mem s.plan r hr
      rw [hinv.ranges] at hrmem
      exact createRanges_length_le _ _ _ hrmem

theorem scheduleLoop_res : ∀ (fuel : Nat) (s : Session),
    (scheduleLoop fuel s).res = s.res := by
  intro fuel
  induction fuel with
  | zero => intro s; rfl
  | succ fuel ih =>
    intro s
    unfold scheduleLoop
    split
    · rw [ih]; rfl
    · rfl

theorem scheduleLoop_cb : ∀ (fuel : Nat) (s : Session),
    (scheduleLoop fuel s).callbackCount = s.callbackCount := by
  intro fuel
  induction fuel with
  | zero => intro s; rfl
  | succ fuel ih =>
    intro s
    unfold scheduleLoop
    split
    · rw [ih]; rfl
    · rfl

theorem scheduleLoop_slice : ∀ (fuel : Nat) (s : Session),
    (scheduleLoop fuel s).slice = s.slice := by
  intro fuel
  induction fuel with
  | zero => intro s; rfl
  | succ fuel ih =>
    intro s
    unfold scheduleLoop
    split
    · rw [ih]; rfl
    · rfl

theorem scheduleLoop_aliveIds : ∀ (fuel : Nat) (s : Session),
    aliveIds (scheduleLoop fuel s).nodes = aliveIds s.nodes := by
  intro fuel
  induction fuel with
  | zero => intro s; rfl
  | succ fuel ih =>
    intro s
    unfold scheduleLoop
    split
    · rw [ih, issue_aliveIds]
    · rfl

theorem scheduleLoop_deadIn : ∀ (fuel : Nat) (s : Session) (nid : Nat),
    deadIn s.nodes nid → deadIn (scheduleLoop fuel s).nodes nid := by
  intro fuel
  induction fuel with
  | zero => intro s nid h; exact h
  | succ fuel ih =>
    intro s nid h
    unfold scheduleLoop
    split
    · exact ih _ _ (issue_deadIn _ _ _ _ h)
    · exact h

theorem scheduleLoop_issued : ∀ (fuel : Nat) (s : Session) (q : Request),
    q ∈ (scheduleLoop fuel s).issued →
    q ∈ s.issued ∨ q.node ∈ aliveIds s.nodes := by
  intro fuel
  induction fuel with
  | zero => intro s q h; exact Or.inl h
  | succ fuel ih =>
    intro s q h
    unfold scheduleLoop at h
    split at h
    · rename_i r n hr hn
      rcases ih _ _ h with hmem | halive
      · simp only [Session.issue, List.mem_append, List.mem_singleton]
          at hmem
        rcases hmem with hmem | rfl
        · exact Or.inl hmem
        · refine Or.inr (mem_aliveIds.mpr ⟨n, nextAvailableNode_mem hn,
            (nextAvailableNode_free hn).1, rfl⟩)
      · rw [issue_aliveIds] at halive
        exact Or.inr halive
    · exact Or.inl h

theorem scheduleLoop_inv : ∀ (fuel : Nat) (s : Session),
    SessionInv s → SessionInv (scheduleLoop fuel s) := by
  intro fuel
  induction fuel with
  | zero => intro s h; exact h
  | succ fuel ih =>
    intro s h
    unfold scheduleLoop
    split
    · rename_i r n hr hn
      exact ih _ (sessionInv_issue h hr hn)
    · exact h

theorem markFailed_map_fst (p : ChunkPlan) (r : ChunkRange) :
    (p.markFailed r).chunks.map Prod.fst = p.chunks.map Prod.fst := by
  rw [ChunkPlan.markFailed, setStatus_map_fst]

theorem markComplete_map_fst (p : ChunkPlan) (r : ChunkRange) :
    (p.markComplete r).chunks.map Prod.fst = p.chunks.map Prod.fst := by
  rw [ChunkPlan.markComplete, setStatus_map_fst]

theorem create_map_fst (sliceSize maxChunk : Nat) :
    (ChunkPlan.create sliceSize maxChunk).chunks.map Prod.fst =
    ChunkPlan.createRanges sliceSize maxChunk := by
  simp only [ChunkPlan.create, List.map_map]
  have hc : (Prod.fst ∘ fun x : ChunkRange => (x, ChunkStatus.pending)) =
      id := rfl
  rw [hc, List.map_id]

theorem sessionInv_update {s : Session} (hinv : SessionInv s)
    {p2 : ChunkPlan} {ns2 : List NodeSt}
    (hp : p2.chunks.map Prod.fst = s.plan.chunks.map Prod.fst)
    (hev : NodesEvolve s.nodes ns2) :
    SessionInv { s with plan := p2, nodes := ns2 } := by
  refine ⟨hinv.cb_le, hinv.cb_iff, hev.preserves_nodup hinv.nodup,
    hev.preserves_out_le hinv.out_le, ?_, hinv.issued_le⟩
  show p2.chunks.map Prod.fst = _
  rw [hp]
  exact hinv.ranges

theorem sessionInv_finish {s : Session} (hinv : SessionInv s)
    (hres : s.res = none) (r : eAssignmentDownloadResult) :
    SessionInv (s.finish r) := by
  have hcb0 : s.callbackCount = 0 := by
    have hiff := hinv.cb_iff
    rw [hres] at hiff
    simp only [Option.isSome_none, Bool.false_eq_true, false_iff] at hiff
    have := hinv.cb_le
    omega
  refine ⟨?_, ?_, (nodesEvolve_finish s r).preserves_nodup hinv.nodup,
    (nodesEvolve_finish s r).preserves_out_le hinv.out_le, hinv.ranges,
    hinv.issued_le⟩
  · show s.callbackCount + 1 ≤ 1
    omega
  · show (some r).isSome = true ↔ s.callbackCount + 1 = 1
    simp [hcb0]

theorem sessionInv_schedule {s : Session} (hinv : SessionInv s) :
    SessionInv s.schedule :=
  scheduleLoop_inv _ _ hinv

theorem schedule_res (s : Session) : s.schedule.res = s.res :=
  scheduleLoop_res _ _

theorem schedule_cb (s : Session) :
    s.schedule.callbackCount = s.callbackCount :=
  scheduleLoop_cb _ _

theorem schedule_aliveIds (s : Session) :
    aliveIds s.schedule.nodes = aliveIds s.nodes :=
  scheduleLoop_aliveIds _ _

theorem sessionInv_checkPool {s : Session} (hinv : SessionInv s)
    (hres : s.res = none) : SessionInv s.checkPool := by
  unfold Session.checkPool
  split
  · exact sessionInv_finish hinv hres _
  · exact sessionInv_schedule hinv

theorem sessionInv_checkDone {s : Session} (hinv : SessionInv s)
    (hres : s.res = none) : SessionInv s.checkDone := by
  unfold Session.checkDone
  split
  · exact sessionInv_finish hinv hres _
  · exact sessionInv_schedule hinv

theorem mkNodes_nodup (regular fallback : List Nat) :
    ((mkNodes regular fallback).map NodeSt.nid).Nodup := by
  unfold mkNodes
  rw [List.map_append, List.map_map, List.map_map]
  have h1 : (NodeSt.nid ∘ fun i : Nat =>
      (⟨i, false, true, false, 0, none⟩ : NodeSt)) = id := rfl
  have h2 : (NodeSt.nid ∘ fun i : Nat =>
      (⟨i, true, true, false, 0, none⟩ : NodeSt)) = id := rfl
  rw [h1, h2, List.map_id, List.map_id]
  refine List.Nodup.append (List.nodup_dedup regular)
    (List.Nodup.filter _ (List.nodup_dedup fallback)) ?_
  intro x hx1 hx2
  have hxr : x ∈ regular := List.mem_dedup.mp hx1
  have hnx := List.of_mem_filter hx2
  simp only [Bool.not_eq_true', decide_eq_false_iff_not] at hnx
  exact hnx hxr

theorem sessionInv_init (slice : sSlice) (regular fallback : List Nat) :
    SessionInv (initSession slice regular fallback) := by
  have hbase : SessionInv (baseSession slice regular fallback) := by
    refine ⟨by show (0 : Nat) ≤ 1; omega, by simp [baseSession],
      mkNodes_nodup regular fallback, ?_, ?_, ?_⟩
    · intro n hn
      unfold mkNodes at hn
      rcases List.mem_append.mp hn with h | h <;>
        · obtain ⟨i, _, rfl⟩ := List.mem_map.mp h
          show (0 : Nat) ≤ 1
          omega
    · exact create_map_fst _ _
    · intro q hq
      simp [baseSession] at hq
  unfold initSession
  split
  · exact sessionInv_finish hbase rfl _
  · exact sessionInv_schedule hbase

theorem sessionInv_step (s : Session) (e : SessionEvent)
    (hinv : SessionInv s) : SessionInv (s.step e) := by
  unfold Session.step
  split
  · exact hinv
  · rename_i hterm
    have hres : s.res = none := by
      cases hm : s.res
      · rfl
      · exact absurd (by simp [Session.terminal, hm]) hterm
    split
    · exact sessionInv_finish hinv hres _
    · -- response: match findNode
      split
      · exact hinv
      · -- some n: match inFlight
        split
        · exact hinv
        · -- some r: if cascade
          split
          · exact sessionInv_checkPool
              (sessionInv_update hinv (markFailed_map_fst _ _)
                (nodesEvolve_killNode _ _)) hres
          · split
            · exact sessionInv_schedule
                (sessionInv_update hinv (markFailed_map_fst _ _)
                  (nodesEvolve_releaseSlot _ _))
            · split
              · exact sessionInv_checkDone
                  (sessionInv_update hinv (markComplete_map_fst _ _)
                    (nodesEvolve_releaseSlot _ _)) hres
              · exact sessionInv_finish
                  (sessionInv_update hinv rfl
                    (nodesEvolve_releaseSlot _ _)) hres _
    · -- chunkTimeout
      split
      · exact hinv
      · split
        · exact hinv
        · exact sessionInv_schedule
            (sessionInv_update hinv (markFailed_map_fst _ _)
              (nodesEvolve_releaseSlot _ _))
    · -- connError
      split
      · exact hinv
      · split
        · exact sessionInv_checkPool
            (sessionInv_update hinv rfl (nodesEvolve_killNode _ _)) hres
        · exact sessionInv_checkPool
            (sessionInv_update hinv (markFailed_map_fst _ _)
              (nodesEvolve_killNode _ _)) hres

theorem reachable_inv {s : Session} (h : Session.Reachable s) :
    SessionInv s := by
  induction h with
  | init slice regular fallback => exact sessionInv_init slice regular fallback
  | step s e _ ih => exact sessionInv_step s e ih

theorem run_cons (s : Session) (e : SessionEvent) (t : List SessionEvent) :
    s.run (e :: t) = (s.step e).run t := rfl

theorem run_append (s : Session) (es1 es2 : List SessionEvent) :
    s.run (es1 ++ es2) = (s.run es1).run es2 :=
  List.foldl_append _ _ _ _

theorem reachable_run {s : Session} (h : Session.Reachable s)
    (es : List SessionEvent) : Session.Reachable (s.run es) := by
  induction es generalizing s with
  | nil => exact h
  | cons e t ih => exact ih (Session.Reachable.step s e h)

theorem step_absorb (s : Session) (e : SessionEvent)
    (h : s.res.isSome = true) : s.step e = s := by
  unfold Session.step
  rw [if_pos]
  show Session.terminal s = true
  simpa [Session.terminal] using h

theorem run_absorb (s : Session) (es : List SessionEvent)
    (h : s.res.isSome = true) : s.run es = s := by
  induction es with
  | nil => rfl
  | cons e t ih => rw [run_cons, step_absorb s e h, ih]

theorem step_globalTimeout_isSome (s : Session) :
    ((s.step .globalTimeout).res).isSome = true := by
  unfold Session.step
  split
  · rename_i h
    simpa [Session.terminal] using h
  · rfl

theorem run_globalTimeout_isSome (s : Session) (es : List SessionEvent)
    (h : SessionEvent.globalTimeout ∈ es) : ((s.run es).res).isSome = true := by
  induction es generalizing s with
  | nil => simp at h
  | cons e t ih =>
    rw [run_cons]
    rcases List.mem_cons.mp h with rfl | hmem
    · by_cases ht : t = []
      · subst ht
        exact step_globalTimeout_isSome s
      · have h1 := step_globalTimeout_isSome s
        rw [run_absorb _ _ h1]
        exact h1
    · exact ih _ hmem

/- deadIn preservation through the step function -/

theorem deadIn_finish {s : Session} {nid : Nat} (h : deadIn s.nodes nid)
    (r : eAssignmentDownloadResult) : deadIn (s.finish r).nodes nid := by
  refine deadIn_map _ ?_ ?_ h <;> intro m <;> simp

theorem deadIn_schedule {s : Session} {nid : Nat} (h : deadIn s.nodes nid) :
    deadIn s.schedule.nodes nid :=
  scheduleLoop_deadIn _ _ _ h

theorem deadIn_checkPool {s : Session} {nid : Nat} (h : deadIn s.nodes nid) :
    deadIn s.checkPool.nodes nid := by
  unfold Session.checkPool
  split
  · exact deadIn_finish h _
  · exact deadIn_schedule h

theorem deadIn_checkDone {s : Session} {nid : Nat} (h : deadIn s.nodes nid) :
    deadIn s.checkDone.nodes nid := by
  unfold Session.checkDone
  split
  · exact deadIn_finish h _
  · exact deadIn_schedule h

theorem deadIn_releaseSlot {ns : List NodeSt} {nid : Nat} (nid2 : Nat)
    (h : deadIn ns nid) : deadIn (releaseSlot ns nid2) nid := by
  refine deadIn_map _ ?_ ?_ h <;> intro m <;>
    by_cases hm : m.nid = nid2 <;> simp [hm]

theorem deadIn_killNode {ns : List NodeSt} {nid : Nat} (nid2 : Nat)
    (h : deadIn ns nid) : deadIn (killNode ns nid2) nid := by
  refine deadIn_map _ ?_ ?_ h <;> intro m <;>
    by_cases hm : m.nid = nid2 <;> simp [hm]

theorem step_deadIn (s : Session) (e : SessionEvent) (nid : Nat)
    (h : deadIn s.nodes nid) : deadIn (s.step e).nodes nid := by
  unfold Session.step
  split
  · exact h
  · split
    · exact deadIn_finish h _
    · split
      · exact h
      · split
        · exact h
        · split
          · exact deadIn_checkPool (deadIn_killNode _ h)
          · split
            · exact deadIn_schedule (deadIn_releaseSlot _ h)
            · split
              · exact deadIn_checkDone (deadIn_releaseSlot _ h)
              · exact deadIn_finish (deadIn_releaseSlot _ h) _
    · split
      · exact h
      · split
        · exact h
        · exact deadIn_schedule (deadIn_releaseSlot _ h)
    · split
      · exact h
      · split
        · exact deadIn_checkPool (deadIn_killNode _ h)
        · exact deadIn_checkPool (deadIn_killNode _ h)

theorem checkPool_issued {s : Session} {q : Request}
    (hq : q ∈ s.checkPool.issued) :
    q ∈ s.issued ∨ q.node ∈ aliveIds s.nodes := by
  unfold Session.checkPool at hq
  split at hq
  · exact Or.inl hq
  · exact scheduleLoop_issued _ _ _ hq

theorem checkDone_issued {s : Session} {q : Request}
    (hq : q ∈ s.checkDone.issued) :
    q ∈ s.issued ∨ q.node ∈ aliveIds s.nodes := by
  unfold Session.checkDone at hq
  split at hq
  · exact Or.inl hq
  · exact scheduleLoop_issued _ _ _ hq

theorem step_issued (s : Session) (e : SessionEvent) (q : Request)
    (hq : q ∈ (s.step e).issued) :
    q ∈ s.issued ∨ q.node ∈ aliveIds s.nodes := by
  unfold Session.step at hq
  split at hq
  · exact Or.inl hq
  · split at hq
    · exact Or.inl hq
    · split at hq
      · exact Or.inl hq
      · split at hq
        · exact Or.inl hq
        · split at hq
          · rcases checkPool_issued hq with h1 | h2
            · exact Or.inl h1
            · exact Or.inr
                ((nodesEvolve_killNode s.nodes _).aliveIds_subset _ h2)
          · split at hq
            · rcases scheduleLoop_issued _ _ _ hq with h1 | h2
              · exact Or.inl h1
              · rw [releaseSlot_aliveIds] at h2
                exact Or.inr h2
            · split at hq
              · rcases checkDone_issued hq with h1 | h2
                · exact Or.inl h1
                · rw [releaseSlot_aliveIds] at h2
                  exact Or.inr h2
              · exact Or.inl hq
    · split at hq
      · exact Or.inl hq
      · split at hq
        · exact Or.inl hq
        · rcases scheduleLoop_issued _ _ _ hq with h1 | h2
          · exact Or.inl h1
          · rw [releaseSlot_aliveIds] at h2
            exact Or.inr h2
    · split at hq
      · exact Or.inl hq
      · split at hq
        · rcases checkPool_issued hq with h1 | h2
          · exact Or.inl h1
          · exact Or.inr
              ((nodesEvolve_killNode s.nodes _).aliveIds_subset _ h2)
        · rcases checkPool_issued hq with h1 | h2
          · exact Or.inl h1
          · exact Or.inr
              ((nodesEvolve_killNode s.nodes _).aliveIds_subset _ h2)

theorem dead_never_issued (s : Session) (nid : Nat)
    (hd : deadIn s.nodes nid) :
    ∀ (es : List SessionEvent) (q : Request), q ∈ (s.run es).issued →
      q ∈ s.issued ∨ q.node ≠ nid := by
  intro es
  induction es generalizing s with
  | nil => intro q hq; exact Or.inl hq
  | cons e t ih =>
    intro q hq
    rw [run_cons] at hq
    rcases ih (s.step e) (step_deadIn s e nid hd) q hq with hmem | hne
    · rcases step_issued s e q hmem with hmem2 | halive
      · exact Or.inl hmem2
      · right
        intro heq
        rw [heq] at halive
        exact not_mem_aliveIds hd halive
    · exact Or.inr hne

theorem step_noSlice_kills (s : Session) (nid : Nat) (n : NodeSt)
    (r : ChunkRange) (storeOk : Bool) (ext : List ExtInfoEntry)
    (hres : s.res = none) (hfind : s.findNode nid = some n)
    (hfl : n.inFlight = some r)
    (hext : hasExtInfo ext FILE_FEED_EXTENDED_INFO_NO_SLICE_AVAILABLE_ID
      = true) :
    deadIn (s.step (.response nid storeOk ext)).nodes nid := by
  have hterm : s.terminal = false := by simp [Session.terminal, hres]
  simp only [Session.step, hterm, Bool.false_eq_true, if_false, hfind, hfl,
    hext, if_true]
  exact deadIn_checkPool (killNode_dead s.nodes nid)

theorem step_busy_aliveIds (s : Session) (nid : Nat) (n : NodeSt)
    (r : ChunkRange) (storeOk : Bool) (ext : List ExtInfoEntry)
    (hres : s.res = none) (hfind : s.findNode nid = some n)
    (hfl : n.inFlight = some r)
    (hnos : hasExtInfo ext FILE_FEED_EXTENDED_INFO_NO_SLICE_AVAILABLE_ID
      = false)
    (hbusy : hasExtInfo ext PULL_PROT_EXTENDED_INFO_NODE_BUSY_ID = true) :
    aliveIds (s.step (.response nid storeOk ext)).nodes =
      aliveIds s.nodes := by
  have hterm : s.terminal = false := by simp [Session.terminal, hres]
  simp only [Session.step, hterm, Bool.false_eq_true, if_false, hfind, hfl,
    hnos, hbusy, if_true]
  rw [schedule_aliveIds]
  exact releaseSlot_aliveIds s.nodes nid

/- ----------------------------------------------------------------
   Claim theorems
   ---------------------------------------------------------------- -/

/-- C6: `ChunkPlan.create` on a slice of 4,000,000 bytes with the protocol's
maximum chunk size of 51,200 bytes produces exactly 79 contiguous ranges
(`ceil(4000000/51200) = 79`), each non-empty and no larger than 51,200
bytes, whose in-order concatenation covers exactly `[0, 4000000)` with no
gaps and no overlaps (each range starts where the previous one ended and
the lengths sum to 4,000,000). -/
theorem C6_plan_79_ranges :
    (ChunkPlan.createRanges 4000000 MAX_FILE_FEED_CHUNK_SIZE).length = 79 ∧
    (4000000 + MAX_FILE_FEED_CHUNK_SIZE - 1) / MAX_FILE_FEED_CHUNK_SIZE
      = 79 ∧
    (ChunkPlan.createRanges 4000000 MAX_FILE_FEED_CHUNK_SIZE).all
      (fun r => decide (0 < r.length ∧
        r.length ≤ MAX_FILE_FEED_CHUNK_SIZE)) = true ∧
    chainedFrom 0 (ChunkPlan.createRanges 4000000 MAX_FILE_FEED_CHUNK_SIZE)
      = true ∧
    sumLengths (ChunkPlan.createRanges 4000000 MAX_FILE_FEED_CHUNK_SIZE)
      = 4000000 := by
  decide

/-- C7: every range produced by `ChunkPlan.create` with the protocol's
maximum chunk size respects the 51200-byte bound, and every chunk request a
reachable session has ever issued requests a range within that bound. -/
theorem C7_chunk_size_bound :
    (∀ (sliceSize : Nat) (r : ChunkRange),
      r ∈ ChunkPlan.createRanges sliceSize MAX_FILE_FEED_CHUNK_SIZE →
      r.length ≤ MAX_FILE_FEED_CHUNK_SIZE) ∧
    (∀ s : Session, Session.Reachable s →
      ∀ q ∈ s.issued, q.range.length ≤ MAX_FILE_FEED_CHUNK_SIZE) :=
  ⟨fun sliceSize r hr => createRanges_length_le sliceSize _ r hr,
   fun _ h => (reachable_inv h).issued_le⟩

/-- Witness for C7 at a concrete range and a concrete reachable session. -/
theorem C7_witness :
    ((⟨0, 51200⟩ : ChunkRange) ∈
      ChunkPlan.createRanges 4000000 MAX_FILE_FEED_CHUNK_SIZE) ∧
    (⟨0, 51200⟩ : ChunkRange).length ≤ MAX_FILE_FEED_CHUNK_SIZE ∧
    ((⟨5, ⟨0, 100⟩⟩ : Request) ∈ (initSession ⟨1, 100⟩ [5] []).issued) ∧
    (⟨5, ⟨0, 100⟩⟩ : Request).range.length ≤ MAX_FILE_FEED_CHUNK_SIZE :=
  ⟨by decide, C7_chunk_size_bound.1 4000000 _ (by decide), by decide,
   C7_chunk_size_bound.2 _ (Session.Reachable.init ⟨1, 100⟩ [5] []) _
     (by decide)⟩

/-- C5: in every reachable ChunkPlan state, the pending, in-flight and
complete classes partition the slice byte range: a byte lies below
`sliceSize` exactly when it belongs to one of the three classes, and no
byte belongs to two classes — and this holds after any sequence of
`create`, `markInFlight`, `markComplete`, `markFailed`. -/
theorem C5_partition (p : ChunkPlan) (h : ChunkPlan.Reachable p) (b : Nat) :
    (b < p.sliceSize ↔
      (p.inPendingClass b = true ∨ p.inInflightClass b = true ∨
       p.inCompleteClass b = true)) ∧
    ¬(p.inPendingClass b = true ∧ p.inInflightClass b = true) ∧
    ¬(p.inPendingClass b = true ∧ p.inCompleteClass b = true) ∧
    ¬(p.inInflightClass b = true ∧ p.inCompleteClass b = true) := by
  have hc := reachable_planCover p h
  refine ⟨⟨fun hb => inClass_cover p hc b hb, fun hcl => ?_⟩, ?_, ?_, ?_⟩
  · rcases hcl with h1 | h1 | h1 <;> exact inClass_lt p hc b _ h1
  · exact inClass_not_both p hc b _ _ (fun st => by
      cases st <;> simp [ChunkStatus.isPending, ChunkStatus.isInflight])
  · exact inClass_not_both p hc b _ _ (fun st => by
      cases st <;> simp [ChunkStatus.isPending, ChunkStatus.isDone])
  · exact inClass_not_both p hc b _ _ (fun st => by
      cases st <;> simp [ChunkStatus.isInflight, ChunkStatus.isDone])

/-- Witness for C5 on a freshly created two-chunk plan at byte 5. -/
theorem C5_witness :
    ((5 < (ChunkPlan.create 100 64).sliceSize ↔
      ((ChunkPlan.create 100 64).inPendingClass 5 = true ∨
       (ChunkPlan.create 100 64).inInflightClass 5 = true ∨
       (ChunkPlan.create 100 64).inCompleteClass 5 = true)) ∧
    ¬((ChunkPlan.create 100 64).inPendingClass 5 = true ∧
      (ChunkPlan.create 100 64).inInflightClass 5 = true) ∧
    ¬((ChunkPlan.create 100 64).inPendingClass 5 = true ∧
      (ChunkPlan.create 100 64).inCompleteClass 5 = true) ∧
    ¬((ChunkPlan.create 100 64).inInflightClass 5 = true ∧
      (ChunkPlan.create 100 64).inCompleteClass 5 = true)) :=
  C5_partition (ChunkPlan.create 100 64)
    (ChunkPlan.Reachable.create 100 64 (by decide)) 5

/-- C4: in every reachable session state, no connection slot holds more
than one outstanding (unanswered) request, and the downloader layer itself
enforces it: the node selector only ever hands out a candidate whose slot
is free. -/
theorem C4_one_request_per_slot :
    (∀ s : Session, Session.Reachable s →
      ∀ n ∈ s.nodes, n.outstanding ≤ 1) ∧
    (∀ (ns : List NodeSt) (n : NodeSt),
      nextAvailableNode ns = some n → n.outstanding = 0) :=
  ⟨fun _ h => (reachable_inv h).out_le,
   fun _ _ hn => (nextAvailableNode_free hn).2⟩

/-- Witness for C4 on a concrete reachable session with an occupied slot. -/
theorem C4_witness :
    ((⟨5, false, true, true, 1, some ⟨0, 100⟩⟩ : NodeSt) ∈
      (initSession ⟨1, 100⟩ [5] []).nodes) ∧
    (⟨5, false, true, true, 1, some ⟨0, 100⟩⟩ : NodeSt).outstanding ≤ 1 ∧
    nextAvailableNode [(⟨6, false, true, false, 0, none⟩ : NodeSt)] =
      some ⟨6, false, true, false, 0, none⟩ ∧
    (⟨6, false, true, false, 0, none⟩ : NodeSt).outstanding = 0 :=
  ⟨by decide,
   C4_one_request_per_slot.1 _ (Session.Reachable.init ⟨1, 100⟩ [5] []) _
     (by decide),
   by decide,
   C4_one_request_per_slot.2 [⟨6, false, true, false, 0, none⟩]
     ⟨6, false, true, false, 0, none⟩ (by decide)⟩

/-- C1: for every accepted invocation of `assignment_downloadSlice`
(immediate status 0), along every sequence of asynchronous events the
completion callback fires at most once, it has fired exactly when the
session is terminal, it fires exactly once whenever the global deadline
timer is among the delivered events, and once a terminal result is
delivered it is never changed nor re-delivered: the single callback
invocation is the only channel of the asynchronous outcome. -/
theorem C1_exactly_once_callback (slice_p : Option sSlice)
    (regular fallback : List Nat) (relativeDeadline : Int) (s0 : Session)
    (hacc : assignment_downloadSlice slice_p regular fallback
      relativeDeadline = (0, some s0)) (es : List SessionEvent) :
    (s0.run es).callbackCount ≤ 1 ∧
    (((s0.run es).res).isSome = true ↔ (s0.run es).callbackCount = 1) ∧
    (SessionEvent.globalTimeout ∈ es → (s0.run es).callbackCount = 1) ∧
    (∀ (r : eAssignmentDownloadResult) (es2 : List SessionEvent),
      (s0.run es).res = some r →
      (s0.run (es ++ es2)).res = some r ∧
      (s0.run (es ++ es2)).callbackCount = 1) := by
  have hreach : Session.Reachable s0 := by
    cases slice_p with
    | none =>
      have he : assignment_downloadSlice none regular fallback
          relativeDeadline = (-22, none) := rfl
      rw [he] at hacc
      exact absurd (congrArg Prod.fst hacc) (by norm_num)
    | some sl =>
      have he : assignment_downloadSlice (some sl) regular fallback
          relativeDeadline =
          if 0 < sl.sliceSize ∧ 0 < relativeDeadline then
            (0, some (initSession sl regular fallback))
          else (-22, none) := rfl
      rw [he] at hacc
      by_cases hv : 0 < sl.sliceSize ∧ 0 < relativeDeadline
      · rw [if_pos hv] at hacc
        have heq : initSession sl regular fallback = s0 :=
          Option.some.inj (congrArg Prod.snd hacc)
        rw [← heq]
        exact Session.Reachable.init sl regular fallback
      · rw [if_neg hv] at hacc
        exact absurd (congrArg Prod.fst hacc) (by norm_num)
  have hinv := reachable_inv (reachable_run hreach es)
  refine ⟨hinv.cb_le, hinv.cb_iff, ?_, ?_⟩
  · intro hmem
    exact hinv.cb_iff.mp (run_globalTimeout_isSome s0 es hmem)
  · intro r es2 hres
    have hsome : ((s0.run es).res).isSome = true := by rw [hres]; rfl
    rw [run_append, run_absorb _ _ hsome]
    exact ⟨hres, hinv.cb_iff.mp hsome⟩

/-- Witness for C1: a concrete accepted call whose deadline fires. -/
theorem C1_witness :
    assignment_downloadSlice (some ⟨1, 100⟩) [5] [] 1000 =
      (0, some (initSession ⟨1, 100⟩ [5] [])) ∧
    ((initSession ⟨1, 100⟩ [5] []).run
      [SessionEvent.globalTimeout]).callbackCount = 1 :=
  ⟨by decide,
   (C1_exactly_once_callback (some ⟨1, 100⟩) [5] [] 1000
      (initSession ⟨1, 100⟩ [5] []) (by decide)
      [SessionEvent.globalTimeout]).2.2.1 (by decide)⟩

/-- C2 counterexample: the `eAssignmentDownloadResult` enum as declared in
`assignment.h` lines 37-39 is empty — it does not enumerate five (or any)
outcomes. -/
theorem C2_counterexample_empty_enum :
    Fintype.card eAssignmentDownloadResultSrc = 0 ∧
    ¬(Fintype.card eAssignmentDownloadResultSrc = 5) := by
  constructor <;> decide

/-- C2 amended: the result type fixed by the spec's taxonomy (section 7)
for the implementer to fill into the source's empty enum has exactly five
outcomes — `Success`, `DeadlineExceeded`, `NoNodesAvailable`,
`StorageFailure`, `InvalidInput` — and every value of the type is one of
these five; every result a session can deliver is of this type. -/
theorem C2_amended_taxonomy :
    Fintype.card eAssignmentDownloadResult = 5 ∧
    (∀ x : eAssignmentDownloadResult,
      x = .Success ∨ x = .DeadlineExceeded ∨ x = .NoNodesAvailable ∨
      x = .StorageFailure ∨ x = .InvalidInput) :=
  ⟨by decide, fun x => by cases x <;> simp⟩

/-- C3: the entry point returns 0 exactly on synchronous acceptance (a
present slice descriptor with a positive byte range and a positive
deadline) and a negative value on synchronous rejection; a session — whose
final result is delivered only through the completion callback — is
created exactly when the immediate return value is 0, so the immediate
status never stands in for the asynchronous result. -/
theorem C3_immediate_status (slice_p : Option sSlice)
    (regular fallback : List Nat) (relativeDeadline : Int) :
    ((assignment_downloadSlice slice_p regular fallback
        relativeDeadline).1 = 0 ∨
     (assignment_downloadSlice slice_p regular fallback
        relativeDeadline).1 < 0) ∧
    ((assignment_downloadSlice slice_p regular fallback
        relativeDeadline).1 = 0 ↔
      ((∃ sl, slice_p = some sl ∧ 0 < sl.sliceSize) ∧
        0 < relativeDeadline)) ∧
    ((assignment_downloadSlice slice_p regular fallback
        relativeDeadline).2.isSome = true ↔
      (assignment_downloadSlice slice_p regular fallback
        relativeDeadline).1 = 0) := by
  cases slice_p with
  | none =>
    have he : assignment_downloadSlice none regular fallback
        relativeDeadline = (-22, none) := rfl
    rw [he]
    refine ⟨Or.inr (by decide), ⟨fun h0 => absurd h0 (by decide), ?_⟩,
      ⟨fun hs => absurd hs (by decide), fun h0 => absurd h0 (by decide)⟩⟩
    rintro ⟨⟨sl, heq, _⟩, _⟩
    exact Option.noConfusion heq
  | some sl =>
    by_cases hv : 0 < sl.sliceSize ∧ 0 < relativeDeadline
    · have he : assignment_downloadSlice (some sl) regular fallback
          relativeDeadline =
          (0, some (initSession sl regular fallback)) := by
        have he0 : assignment_downloadSlice (some sl) regular fallback
            relativeDeadline =
            if 0 < sl.sliceSize ∧ 0 < relativeDeadline then
              (0, some (initSession sl regular fallback))
            else (-22, none) := rfl
        rw [he0, if_pos hv]
      rw [he]
      exact ⟨Or.inl rfl,
        ⟨fun _ => ⟨⟨sl, rfl, hv.1⟩, hv.2⟩, fun _ => rfl⟩,
        ⟨fun _ => rfl, fun _ => rfl⟩⟩
    · have he : assignment_downloadSlice (some sl) regular fallback
          relativeDeadline = (-22, none) := by
        have he0 : assignment_downloadSlice (some sl) regular fallback
            relativeDeadline =
            if 0 < sl.sliceSize ∧ 0 < relativeDeadline then
              (0, some (initSession sl regular fallback))
            else (-22, none) := rfl
        rw [he0, if_neg hv]
      rw [he]
      refine ⟨Or.inr (by decide), ⟨fun h0 => absurd h0 (by decide), ?_⟩,
        ⟨fun hs => absurd hs (by decide), fun h0 => absurd h0 (by decide)⟩⟩
      rintro ⟨⟨sl2, heq, hsz⟩, hdl⟩
      exact (hv ⟨by rw [← Option.some.inj heq] at hsz; exact hsz, hdl⟩).elim

theorem step_noSlice_issued (s : Session) (nid : Nat) (n : NodeSt)
    (r : ChunkRange) (storeOk : Bool) (ext : List ExtInfoEntry)
    (hres : s.res = none) (hfind : s.findNode nid = some n)
    (hfl : n.inFlight = some r)
    (hext : hasExtInfo ext FILE_FEED_EXTENDED_INFO_NO_SLICE_AVAILABLE_ID
      = true) :
    ∀ q ∈ (s.step (.response nid storeOk ext)).issued,
      q ∈ s.issued ∨ q.node ≠ nid := by
  have hterm : s.terminal = false := by simp [Session.terminal, hres]
  simp only [Session.step, hterm, Bool.false_eq_true, if_false, hfind, hfl,
    hext, if_true]
  intro q hq
  rcases checkPool_issued hq with h1 | h2
  · exact Or.inl h1
  · right
    intro heq
    rw [heq] at h2
    exact not_mem_aliveIds (killNode_dead s.nodes nid) h2

/-- The request layout asserted by the claim — a content id of 24 ascii
bytes followed by the numeric fields — written from the spec's words
(spec.md section 6) for comparison with the layout of the source grammar. -/
def specRequestLayout24 (crid : List Nat) (sliceId offset chunkSize : Nat) :
    List Nat :=
  crid.take 24 ++ netshort sliceId ++ netlong offset ++ netlong chunkSize

set_option maxRecDepth 4000 in
/-- C8 counterexample: for a concrete full-length content id, the request
built per the source grammar (`<crid>: 136<ascii>`, u_protocol.h line 18)
is 146 bytes and differs from the claim's 24-byte-content-id layout, which
would be 34 bytes. -/
theorem C8_counterexample_crid24 :
    (buildFileFeedRequest (List.replicate CRID_WIRE_LENGTH 48) 7 0
      51200).length = 146 ∧
    (specRequestLayout24 (List.replicate CRID_WIRE_LENGTH 48) 7 0
      51200).length = 34 ∧
    buildFileFeedRequest (List.replicate CRID_WIRE_LENGTH 48) 7 0 51200 ≠
      specRequestLayout24 (List.replicate CRID_WIRE_LENGTH 48) 7 0 51200 := by
  constructor
  · rfl
  · constructor
    · rfl
    · intro h
      exact absurd (congrArg List.length h) (by decide)

/-- C8 amended: a chunk request built per the source grammar consists of
the content id as 136 ascii bytes, then the slice id as an unsigned 16-bit
integer in network byte order (2 bytes), then the offset and the chunk
size as unsigned 32-bit integers in network byte order (4 bytes each), in
that order — 146 bytes in total. -/
theorem C8_amended_layout (crid : List Nat)
    (h : crid.length = CRID_WIRE_LENGTH) (sliceId offset chunkSize : Nat) :
    (buildFileFeedRequest crid sliceId offset chunkSize).take
      CRID_WIRE_LENGTH = crid ∧
    (buildFileFeedRequest crid sliceId offset chunkSize).drop
      CRID_WIRE_LENGTH =
      netshort sliceId ++ netlong offset ++ netlong chunkSize ∧
    (netshort sliceId).length = 2 ∧
    (netlong offset).length = 4 ∧
    (netlong chunkSize).length = 4 ∧
    (buildFileFeedRequest crid sliceId offset chunkSize).length =
      CRID_WIRE_LENGTH + 10 := by
  have hassoc : buildFileFeedRequest crid sliceId offset chunkSize =
      crid ++ (netshort sliceId ++ netlong offset ++ netlong chunkSize) := by
    simp [buildFileFeedRequest, List.append_assoc]
  rw [hassoc]
  refine ⟨List.take_left' h, List.drop_left' h, rfl, rfl, rfl, ?_⟩
  rw [List.length_append, h]
  rfl

set_option maxRecDepth 4000 in
/-- Witness for C8 amended at a concrete 136-byte content id. -/
theorem C8_witness :
    (List.replicate CRID_WIRE_LENGTH 48).length = CRID_WIRE_LENGTH ∧
    (buildFileFeedRequest (List.replicate CRID_WIRE_LENGTH 48) 7 0
      51200).take CRID_WIRE_LENGTH = List.replicate CRID_WIRE_LENGTH 48 ∧
    (buildFileFeedRequest (List.replicate CRID_WIRE_LENGTH 48) 7 0
      51200).drop CRID_WIRE_LENGTH =
      netshort 7 ++ netlong 0 ++ netlong 51200 :=
  ⟨by decide,
   (C8_amended_layout (List.replicate CRID_WIRE_LENGTH 48) (by decide)
     7 0 51200).1,
   (C8_amended_layout (List.replicate CRID_WIRE_LENGTH 48) (by decide)
     7 0 51200).2.1⟩

/-- C9: the defined extended-info codes are node-busy (id 1, 4-byte
payload) and no-slice-available (id 128, no payload), as fixed in
u_protocol.h lines 9-15; a live session receiving a response whose
extended info carries no-slice-available marks the responding node dead
and never issues a request to it again for the rest of the session (its
chunk is re-queued and re-routed to the remaining candidates), while a
node-busy response is transient: the set of live, selectable nodes is
unchanged, so the same node stays eligible for retry. -/
theorem C9_ext_info_handling :
    (PULL_PROT_EXTENDED_INFO_NODE_BUSY_ID = 1 ∧
     PULL_PROT_EXTENDED_INFO_NODE_BUSY_DATA_SIZE = 4 ∧
     FILE_FEED_EXTENDED_INFO_NO_SLICE_AVAILABLE_ID = 128 ∧
     FILE_FEED_EXTENDED_INFO_NO_SLICE_AVAILABLE_DATA_SIZE = 0) ∧
    (∀ (s : Session) (nid : Nat) (n : NodeSt) (r : ChunkRange)
       (storeOk : Bool) (ext : List ExtInfoEntry),
      s.res = none → s.findNode nid = some n → n.inFlight = some r →
      hasExtInfo ext FILE_FEED_EXTENDED_INFO_NO_SLICE_AVAILABLE_ID = true →
      deadIn (s.step (.response nid storeOk ext)).nodes nid ∧
      (∀ (es : List SessionEvent) (q : Request),
        q ∈ ((s.step (.response nid storeOk ext)).run es).issued →
        q ∈ s.issued ∨ q.node ≠ nid)) ∧
    (∀ (s : Session) (nid : Nat) (n : NodeSt) (r : ChunkRange)
       (storeOk : Bool) (ext : List ExtInfoEntry),
      s.res = none → s.findNode nid = some n → n.inFlight = some r →
      hasExtInfo ext FILE_FEED_EXTENDED_INFO_NO_SLICE_AVAILABLE_ID
        = false →
      hasExtInfo ext PULL_PROT_EXTENDED_INFO_NODE_BUSY_ID = true →
      aliveIds (s.step (.response nid storeOk ext)).nodes =
        aliveIds s.nodes) := by
  refine ⟨⟨rfl, rfl, rfl, rfl⟩, ?_, ?_⟩
  · intro s nid n r storeOk ext hres hfind hfl hext
    have hkill := step_noSlice_kills s nid n r storeOk ext hres hfind hfl
      hext
    refine ⟨hkill, ?_⟩
    intro es q hq
    rcases dead_never_issued _ nid hkill es q hq with hmem | hne
    · exact step_noSlice_issued s nid n r storeOk ext hres hfind hfl hext
        q hmem
    · exact Or.inr hne
  · intro s nid n r storeOk ext hres hfind hfl hnos hbusy
    exact step_busy_aliveIds s nid n r storeOk ext hres hfind hfl hnos
      hbusy

/-- Witness for C9: a concrete session where node 5 answers
no-slice-available and is marked dead. -/
theorem C9_witness :
    deadIn ((initSession ⟨1, 100⟩ [5, 6] []).step
      (SessionEvent.response 5 true [⟨128, []⟩])).nodes 5 :=
  (C9_ext_info_handling.2.1 (initSession ⟨1, 100⟩ [5, 6] []) 5
    ⟨5, false, true, true, 1, some ⟨0, 100⟩⟩ ⟨0, 100⟩ true [⟨128, []⟩]
    (by decide) (by decide) (by decide) (by decide)).1

/-- C10: the documented contract of `list_popFront` (remove and return the
head element; NULL for a NULL or empty list) evaluated against the stubbed
body of `u_list.cc` lines 42-44, whose empty body leaves the list
unchanged: on a one-element list the contract removes the element while
the stub does not. -/
theorem C10_popFront_stub_divergence :
    list_popFront (some [7]) = (some 7, some []) ∧
    list_popFront (some []) = (none, some []) ∧
    list_popFront none = (none, none) ∧
    list_popFront_stub (some [7]) = some [7] ∧
    list_popFront_stub (some [7]) ≠ (list_popFront (some [7])).2 := by
  refine ⟨rfl, rfl, rfl, rfl, ?_⟩
  decide
